import Mathlib

/-!
Verification of the maintenance scheduling and due-date lifecycle of the
`qlts` asset-inventory application (source: `app.py`, `models.py`).

Shallow embedding conventions:
* A calendar date (Python `datetime.date`, SQL `Date` column) is represented
  by its day ordinal (`Int`, days since 1970-01-01, proleptic Gregorian).
  Python date comparison and `timedelta(days = n)` arithmetic correspond
  exactly to `Int` comparison and addition on ordinals.  `Date` (a civil
  year/month/day triple), `daysFromCivil` and `civilFromDays` convert
  between the two views; they are needed to state concrete-date properties
  and to embed the SQL `extract('month'/'year', ...)` operations.
* `Float` cost values are modelled as exact rationals (`ℚ`); Python
  `round` (banker's rounding, half to even) is `pyRoundInt` / `pyRound1`.
* The SQLAlchemy session is modelled explicitly: the committed database is
  a `List MaintenanceRecord`, records staged by `db.session.add` accumulate
  in a `pending` list, queries see `db ++ pending` (autoflush),
  `db.session.commit()` appends `pending` to the database, and
  `db.session.rollback()` discards every pending record.
* Fallibility is modelled by injected flags: `failAdd aid = true` means the
  `try` body staging the record for asset `aid` raises (the `except` arm
  then runs `db.session.rollback()`), and `commitOk = false` means the
  final `db.session.commit()` raises (its `except` arm rolls back).
-/

namespace Qlts

/-- A proleptic Gregorian civil date, as Python `datetime.date`. -/
structure Date where
  year : Int
  month : Int
  day : Int
deriving DecidableEq

/-- Day ordinal of a civil date: days since 1970-01-01 in the proleptic
Gregorian calendar (the calendar used by Python `datetime.date`). -/
def daysFromCivil (dt : Date) : Int :=
  let y := if dt.month ≤ 2 then dt.year - 1 else dt.year
  let era := y.ediv 400
  let yoe := y.emod 400
  let mp := (dt.month + (if dt.month > 2 then -3 else 9)).emod 12
  let doy := (153 * mp + 2).ediv 5 + dt.day - 1
  let doe := yoe * 365 + yoe.ediv 4 - yoe.ediv 100 + doy
  era * 146097 + doe - 719468

/-- Civil date of a day ordinal (inverse of `daysFromCivil` on valid dates). -/
def civilFromDays (z0 : Int) : Date :=
  let z := z0 + 719468
  let era := z.ediv 146097
  let doe := z.emod 146097
  let yoe := (doe - doe.ediv 1460 + doe.ediv 36524 - doe.ediv 146096).ediv 365
  let y := yoe + era * 400
  let doy := doe - (365 * yoe + yoe.ediv 4 - yoe.ediv 100)
  let mp := (5 * doy + 2).ediv 153
  let d := doy - (153 * mp + 2).ediv 5 + 1
  let m := mp + (if mp < 10 then 3 else -9)
  ⟨y + (if m ≤ 2 then 1 else 0), m, d⟩

/-- SQL `extract('year', d)` on an ordinal-represented date. -/
def yearOf (d : Int) : Int := (civilFromDays d).year

/-- SQL `extract('month', d)` on an ordinal-represented date. -/
def monthOf (d : Int) : Int := (civilFromDays d).month

/-- `models.py` `Asset`: only the columns the scheduler and the claims read.
`deleted_at` is the soft-delete marker (`None` = live). -/
structure Asset where
  id : Nat
  status : String
  deleted_at : Option Int
deriving DecidableEq

/-- `models.py` `MaintenanceRecord`: the columns used by the scheduler,
classifier and reporting code.  `maintenance_date` and `next_due_date` are
day ordinals; `cost` and `status` are nullable columns. -/
structure MaintenanceRecord where
  asset_id : Nat
  maintenance_date : Int
  type : String
  description : String
  vendor : Option String
  person_in_charge : String
  cost : Option ℚ
  next_due_date : Option Int
  status : Option String
deriving DecidableEq

/-- `MaintenanceRecord.query.filter_by(asset_id=aid)`. -/
def recordsFor (db : List MaintenanceRecord) (aid : Nat) : List MaintenanceRecord :=
  db.filter (fun r => r.asset_id == aid)

/-- Number of maintenance records of asset `aid` in the store. -/
def countFor (db : List MaintenanceRecord) (aid : Nat) : Nat :=
  (recordsFor db aid).length

/-- Largest non-null `next_due_date` in a record list (`none` when every
record has a null `next_due_date`, in particular on the empty list). -/
def maxNextDue : List MaintenanceRecord → Option Int
  | [] => none
  | r :: rs =>
    match r.next_due_date, maxNextDue rs with
    | some d, some m => some (max d m)
    | some d, none => some d
    | none, m => m

/-- `next_due` in `index` (app.py): the `next_due_date` of the asset's
record ordered first by `next_due_date DESC`.  SQLite sorts NULLs last
under DESC, so this is the maximal non-null `next_due_date` when one
exists, and `None` otherwise (no record, or only null due dates). -/
def latestNextDue (db : List MaintenanceRecord) (aid : Nat) : Option Int :=
  maxNextDue (recordsFor db aid)

/-- `need_create` in `index` (app.py): true when the asset has no
`next_due` at all, or its `next_due` is strictly before today. -/
def needCreate (db : List MaintenanceRecord) (aid : Nat) (today : Int) : Bool :=
  match latestNextDue db aid with
  | none => true
  | some d => decide (d < today)

/-- The auto-scheduled record built in `index` (app.py):
`maintenance_date = today`, type `maintenance`, cost 0,
`next_due_date = today + timedelta(days=365)`, status `scheduled`. -/
def autoRecord (aid : Nat) (today : Int) : MaintenanceRecord :=
  { asset_id := aid
    maintenance_date := today
    type := "maintenance"
    description := "Lịch bảo trì định kỳ (tự động)"
    vendor := none
    person_in_charge := "System"
    cost := some 0
    next_due_date := some (today + 365)
    status := some "scheduled" }

/-- The `for a in assets` staging loop of `index` (app.py).  `pending` is
the list of records staged in the session but not yet committed; queries
see `db ++ pending` (autoflush).  When staging an asset's record raises
(`failAdd a.id`), the `except` arm runs `db.session.rollback()`, which
discards every pending record; the loop then continues with the next
asset. -/
def stageGo (failAdd : Nat → Bool) (db : List MaintenanceRecord) (today : Int) :
    List Asset → List MaintenanceRecord → List MaintenanceRecord
  | [], pending => pending
  | a :: rest, pending =>
    if needCreate (db ++ pending) a.id today then
      if failAdd a.id then stageGo failAdd db today rest []
      else stageGo failAdd db today rest (pending ++ [autoRecord a.id today])
    else stageGo failAdd db today rest pending

/-- Records left pending at the end of the staging loop of `index`. -/
def stagePass (failAdd : Nat → Bool) (assets : List Asset)
    (db : List MaintenanceRecord) (today : Int) : List MaintenanceRecord :=
  stageGo failAdd db today assets []

/-- The scheduling side effect of `index` (app.py): stage the loop's
records, then `db.session.commit()` them in one batch; when the commit
raises (`commitOk = false`) the `except` arm rolls the whole batch back
and the database is left unchanged. -/
def runScheduler (failAdd : Nat → Bool) (commitOk : Bool) (assets : List Asset)
    (db : List MaintenanceRecord) (today : Int) : List MaintenanceRecord :=
  if commitOk then db ++ stagePass failAdd assets db today else db

/-- The scheduler on the happy path: no staging failure, commit succeeds. -/
def schedule (assets : List Asset) (db : List MaintenanceRecord) (today : Int) :
    List MaintenanceRecord :=
  runScheduler (fun _ => false) true assets db today

/-- The due-window filter of `index` (app.py):
`next_due_date != None ∧ next_due_date <= today + timedelta(days=30)`. -/
def dueSoonFilter (today : Int) (r : MaintenanceRecord) : Bool :=
  match r.next_due_date with
  | some d => decide (d ≤ today + 30)
  | none => false

/-- Sort key used by `order_by(next_due_date.asc())` on the already
null-filtered due list (the `none` branch is unreachable there). -/
def dueKey (r : MaintenanceRecord) : Int :=
  match r.next_due_date with
  | some d => d
  | none => 0

/-- Ordering relation of the due list: ascending `next_due_date`. -/
def dueLE (r s : MaintenanceRecord) : Prop := dueKey r ≤ dueKey s

instance : DecidableRel dueLE := fun r s => Int.decLe (dueKey r) (dueKey s)

instance : IsTotal MaintenanceRecord dueLE := ⟨fun r s => le_total (dueKey r) (dueKey s)⟩

instance : IsTrans MaintenanceRecord dueLE := ⟨fun _ _ _ h1 h2 => le_trans h1 h2⟩

/-- `due_records` in `index` (app.py): records with a non-null
`next_due_date` at most 30 days ahead, ordered ascending by
`next_due_date`, limited to 10 rows. -/
def listDue (db : List MaintenanceRecord) (today : Int) : List MaintenanceRecord :=
  (List.insertionSort dueLE (db.filter (dueSoonFilter today))).take 10

/-- Overdue test used both by the homepage comprehension
(`r.next_due_date < today` over the fetched due list) and by the
dashboard's global overdue query
(`next_due_date != None ∧ next_due_date < today`). -/
def isOverdueRec (today : Int) (r : MaintenanceRecord) : Bool :=
  match r.next_due_date with
  | some d => decide (d < today)
  | none => false

/-- Due-soon test of the homepage comprehension:
`r.next_due_date >= today` over the fetched due list. -/
def isDueSoonRec (today : Int) (r : MaintenanceRecord) : Bool :=
  match r.next_due_date with
  | some d => decide (today ≤ d)
  | none => false

/-- Dashboard global overdue count (app.py `maintenance_dashboard`):
`filter(next_due_date != None, next_due_date < today).count()`. -/
def countOverdue (db : List MaintenanceRecord) (today : Int) : Nat :=
  (db.filter (isOverdueRec today)).length

/-- The whole observable outcome of the `index` route's maintenance part:
the database after the scheduling pass, the fetched `due_records` list,
and the `overdue` / `due_soon` counts computed over that capped list. -/
def indexRun (failAdd : Nat → Bool) (commitOk : Bool) (assets : List Asset)
    (db : List MaintenanceRecord) (today : Int) :
    List MaintenanceRecord × List MaintenanceRecord × Nat × Nat :=
  let db2 := runScheduler failAdd commitOk assets db today
  let due_records := listDue db2 today
  (db2, due_records, due_records.countP (isOverdueRec today),
    due_records.countP (isDueSoonRec today))

/-- SQL `SUM(cost)` with the code's `or 0` guard: null costs contribute 0
and an all-null (or empty) group sums to 0. -/
def sumCost (rs : List MaintenanceRecord) : ℚ :=
  (rs.map (fun r => r.cost.getD 0)).sum

/-- `maintenance_report` (app.py): records of the given year grouped by
`extract('month', maintenance_date)`, each group summed over `cost`,
groups ordered ascending by month.  Only months that actually have a
record produce a group (SQL `GROUP BY`): empty months are omitted. -/
def monthly_cost_report (db : List MaintenanceRecord) (year : Int) : List (Int × ℚ) :=
  let inY := db.filter (fun r => yearOf r.maintenance_date == year)
  let months := List.insertionSort (fun a b => a ≤ b)
    ((inY.map (fun r => monthOf r.maintenance_date)).dedup)
  months.map (fun m =>
    (m, sumCost (inY.filter (fun r => monthOf r.maintenance_date == m))))

/-- `total_year` in `maintenance_report` (app.py): the sum of the monthly
totals of the report. -/
def total_year (db : List MaintenanceRecord) (year : Int) : ℚ :=
  ((monthly_cost_report db year).map Prod.snd).sum

/-- Python `round(q)`: nearest integer, ties to even (banker's rounding),
modelled on exact rationals. -/
def pyRoundInt (q : ℚ) : Int :=
  let f := ⌊q⌋
  if q - f < 1 / 2 then f
  else if 1 / 2 < q - f then f + 1
  else if f.emod 2 = 0 then f else f + 1

/-- Python `round(q, 1)`: round to one decimal place. -/
def pyRound1 (q : ℚ) : ℚ := (pyRoundInt (q * 10) : ℚ) / 10

/-- ASCII lowercase of a character (Python `str.lower()` restricted to the
ASCII status strings stored by this application). -/
def lowerChar (c : Char) : Char :=
  if 65 ≤ c.toNat ∧ c.toNat ≤ 90 then Char.ofNat (c.toNat + 32) else c

/-- ASCII lowercase of a string. -/
def lowerAscii (s : String) : String := ⟨s.data.map lowerChar⟩

/-- `completed_year` in `maintenance_dashboard` (app.py): records whose
`(status or '').lower()` is `'completed'`. -/
def completedCount (rs : List MaintenanceRecord) : Nat :=
  rs.countP (fun r => lowerAscii (r.status.getD "") == "completed")

/-- `total_cost_year` in `maintenance_dashboard` (app.py): `SUM(cost)`
over the period's records, `or 0` when null. -/
def totalCost (rs : List MaintenanceRecord) : ℚ := sumCost rs

/-- `completion_rate` in `maintenance_dashboard` (app.py):
`round((completed / total) * 100, 1) if total else 0` over the period's
records. -/
def completion_rate (rs : List MaintenanceRecord) : ℚ :=
  if rs.length = 0 then 0
  else pyRound1 ((completedCount rs : ℚ) / (rs.length : ℚ) * 100)

/-- `avg_cost_per_record` in `maintenance_dashboard` (app.py):
`round(total_cost / total) if total else 0` over the period's records. -/
def avg_cost_per_record (rs : List MaintenanceRecord) : Int :=
  if rs.length = 0 then 0
  else pyRoundInt (totalCost rs / (rs.length : ℚ))

/-! Concrete sample data used to instantiate the claims. -/

/-- A live asset with a given id. -/
def liveAsset (n : Nat) : Asset := ⟨n, "active", none⟩

/-- A plain maintenance record of asset `aid` with the given due date. -/
def plainRec (aid : Nat) (due : Option Int) : MaintenanceRecord :=
  ⟨aid, 0, "maintenance", "", none, "Alice", some 50, due, some "completed"⟩

/-- A record of year 2023 with a given month/day `maintenance_date` and cost. -/
def datedRec (m d : Int) (c : ℚ) : MaintenanceRecord :=
  ⟨1, daysFromCivil ⟨2023, m, d⟩, "repair", "", none, "Bob", some c, none, some "completed"⟩

/-- Report example: one record in March (cost 100), one in July (cost 200). -/
def reportDb : List MaintenanceRecord := [datedRec 3 15 100, datedRec 7 20 200]

/-- A record with a given status and cost. -/
def statusRec (st : Option String) (c : Option ℚ) : MaintenanceRecord :=
  ⟨1, 0, "maintenance", "", none, "Carol", c, none, st⟩

/-- KPI example: 7 records, 3 of them completed, total cost 1000. -/
def kpiDb : List MaintenanceRecord :=
  [statusRec (some "completed") (some 100),
   statusRec (some "Completed") (some 200),
   statusRec (some "completed") (some 300),
   statusRec (some "scheduled") (some 400),
   statusRec (some "in_progress") (some 0),
   statusRec (some "cancelled") none,
   statusRec none (some 0)]

/-! Shared lemmas about the scheduler's staging loop. -/

theorem recordsFor_append (xs ys : List MaintenanceRecord) (aid : Nat) :
    recordsFor (xs ++ ys) aid = recordsFor xs aid ++ recordsFor ys aid := by
  simp [recordsFor, List.filter_append]

theorem recordsFor_auto_self (aid : Nat) (t : Int) :
    recordsFor [autoRecord aid t] aid = [autoRecord aid t] := by
  simp [recordsFor, autoRecord]

theorem recordsFor_auto_ne {bid aid : Nat} (h : bid ≠ aid) (t : Int) :
    recordsFor [autoRecord bid t] aid = [] := by
  simp [recordsFor, autoRecord, h]

theorem needCreate_append_right {ys : List MaintenanceRecord} {aid : Nat}
    (xs : List MaintenanceRecord) (t : Int) (h : recordsFor ys aid = []) :
    needCreate (xs ++ ys) aid t = needCreate xs aid t := by
  simp [needCreate, latestNextDue, recordsFor_append, h]

theorem maxNextDue_snoc_auto (xs : List MaintenanceRecord) (aid : Nat) (t : Int) :
    ∃ M, maxNextDue (xs ++ [autoRecord aid t]) = some M ∧ t + 365 ≤ M := by
  induction xs with
  | nil => exact ⟨t + 365, rfl, le_refl _⟩
  | cons r rs ih =>
    obtain ⟨M, hM, hle⟩ := ih
    cases hnd : r.next_due_date with
    | none => exact ⟨M, by simp [maxNextDue, hnd, hM], hle⟩
    | some d =>
      exact ⟨max d M, by simp [maxNextDue, hnd, hM], le_trans hle (le_max_right d M)⟩

theorem needCreate_of_staged {pending : List MaintenanceRecord} {aid : Nat} {t : Int}
    (xs : List MaintenanceRecord) (h : recordsFor pending aid = [autoRecord aid t]) :
    needCreate (xs ++ pending) aid t = false := by
  obtain ⟨M, hM, hle⟩ := maxNextDue_snoc_auto (recordsFor xs aid) aid t
  simp only [needCreate, latestNextDue, recordsFor_append, h, hM]
  simp
  omega

theorem stage_skip {db : List MaintenanceRecord} {aid : Nat} {t : Int}
    (f : Nat → Bool) (h : needCreate db aid t = false) :
    ∀ (assets : List Asset) (pending : List MaintenanceRecord),
      recordsFor pending aid = [] →
      recordsFor (stageGo f db t assets pending) aid = [] := by
  intro assets
  induction assets with
  | nil => intro pending hp; simpa [stageGo] using hp
  | cons a rest ih =>
    intro pending hp
    rw [stageGo]
    by_cases hid : a.id = aid
    · rw [hid, needCreate_append_right db t hp, h]
      simp only [if_false, Bool.false_eq_true]
      exact ih pending hp
    · by_cases hc : needCreate (db ++ pending) a.id t
      · simp only [hc, if_true]
        by_cases hf : f a.id
        · simp only [hf, if_true]
          exact ih [] rfl
        · simp only [hf, Bool.false_eq_true, if_false]
          refine ih (pending ++ [autoRecord a.id t]) ?_
          rw [recordsFor_append, hp, recordsFor_auto_ne hid, List.append_nil]
      · simp only [hc, Bool.false_eq_true, if_false]
        exact ih pending hp

theorem stage_stable {db : List MaintenanceRecord} {aid : Nat} {t : Int} :
    ∀ (assets : List Asset) (pending : List MaintenanceRecord),
      recordsFor pending aid = [autoRecord aid t] →
      recordsFor (stageGo (fun _ => false) db t assets pending) aid
        = [autoRecord aid t] := by
  intro assets
  induction assets with
  | nil => intro pending hp; simpa [stageGo] using hp
  | cons b rest ih =>
    intro pending hp
    rw [stageGo]
    by_cases hid : b.id = aid
    · rw [hid, needCreate_of_staged db hp]
      simp only [Bool.false_eq_true, if_false]
      exact ih pending hp
    · by_cases hc : needCreate (db ++ pending) b.id t
      · simp only [hc, if_true, Bool.false_eq_true, if_false]
        refine ih (pending ++ [autoRecord b.id t]) ?_
        rw [recordsFor_append, hp, recordsFor_auto_ne hid, List.append_nil]
      · simp only [hc, Bool.false_eq_true, if_false]
        exact ih pending hp

theorem stage_create {db : List MaintenanceRecord} {aid : Nat} {t : Int}
    (h : needCreate db aid t = true) :
    ∀ (assets : List Asset) (pending : List MaintenanceRecord),
      recordsFor pending aid = [] →
      (∃ a, a ∈ assets ∧ a.id = aid) →
      recordsFor (stageGo (fun _ => false) db t assets pending) aid
        = [autoRecord aid t] := by
  intro assets
  induction assets with
  | nil =>
    intro pending _ hex
    obtain ⟨a, ha, _⟩ := hex
    exact absurd ha (List.not_mem_nil a)
  | cons b rest ih =>
    intro pending hp hex
    rw [stageGo]
    by_cases hid : b.id = aid
    · rw [hid, needCreate_append_right db t hp, h]
      simp only [if_true, Bool.false_eq_true, if_false]
      refine stage_stable rest (pending ++ [autoRecord aid t]) ?_
      rw [recordsFor_append, hp, recordsFor_auto_self, List.nil_append]
    · obtain ⟨a, ha, haid⟩ := hex
      have harest : a ∈ rest := by
        rcases List.mem_cons.mp ha with h1 | h1
        · exact absurd (h1 ▸ haid) hid
        · exact h1
      by_cases hc : needCreate (db ++ pending) b.id t
      · simp only [hc, if_true, Bool.false_eq_true, if_false]
        refine ih (pending ++ [autoRecord b.id t]) ?_ ⟨a, harest, haid⟩
        rw [recordsFor_append, hp, recordsFor_auto_ne hid, List.append_nil]
      · simp only [hc, Bool.false_eq_true, if_false]
        exact ih pending hp ⟨a, harest, haid⟩

theorem schedule_recordsFor_skip {db : List MaintenanceRecord} {aid : Nat}
    {today d : Int} (assets : List Asset)
    (h : latestNextDue db aid = some d) (hlt : ¬ d < today) :
    recordsFor (schedule assets db today) aid = recordsFor db aid := by
  have hnc : needCreate db aid today = false := by
    simp [needCreate, h, hlt]
  have hstage := stage_skip (fun _ => false) hnc assets [] rfl
  simp only [schedule, runScheduler, stagePass, if_true]
  rw [recordsFor_append, hstage, List.append_nil]

theorem schedule_recordsFor_create {db : List MaintenanceRecord} {aid : Nat}
    {today : Int} {assets : List Asset} {a : Asset}
    (ha : a ∈ assets) (haid : a.id = aid) (h0 : recordsFor db aid = []) :
    recordsFor (schedule assets db today) aid = [autoRecord aid today] := by
  have hnc : needCreate db aid today = true := by
    simp [needCreate, latestNextDue, h0, maxNextDue]
  have hstage := stage_create hnc assets [] rfl ⟨a, ha, haid⟩
  simp only [schedule, runScheduler, stagePass, if_true]
  rw [recordsFor_append, hstage, h0, List.nil_append]

theorem stageGo_id_congr (f : Nat → Bool) (db : List MaintenanceRecord) (t : Int) :
    ∀ (xs ys : List Asset), xs.map (fun a => a.id) = ys.map (fun a => a.id) →
      ∀ pending, stageGo f db t xs pending = stageGo f db t ys pending := by
  intro xs
  induction xs with
  | nil =>
    intro ys h pending
    cases ys with
    | nil => rfl
    | cons b rest' => simp at h
  | cons a rest ih =>
    intro ys h pending
    cases ys with
    | nil => simp at h
    | cons b rest' =>
      simp only [List.map_cons, List.cons.injEq] at h
      obtain ⟨hid, hrest⟩ := h
      rw [stageGo, stageGo, hid]
      by_cases hc : needCreate (db ++ pending) b.id t
      · by_cases hf : f b.id
        · simp only [hc, hf, if_true]
          exact ih rest' hrest []
        · simp only [hc, hf, if_true, Bool.false_eq_true, if_false]
          exact ih rest' hrest (pending ++ [autoRecord b.id t])
      · simp only [hc, Bool.false_eq_true, if_false]
        exact ih rest' hrest pending

/-! The claims. -/

/-- C1: Scheduler idempotence per day.  For an asset with no maintenance
history, running the home-page scheduler twice with the same `today`
leaves exactly one maintenance record for that asset, not two: the first
run commits a record with `next_due_date = today + 365`, so the second
run's `need_create` check fails for that asset. -/
theorem scheduler_idempotent_per_day (assets : List Asset)
    (db : List MaintenanceRecord) (today : Int) (a : Asset)
    (ha : a ∈ assets) (h0 : recordsFor db a.id = []) :
    countFor (schedule assets (schedule assets db today) today) a.id = 1 := by
  have h1 : recordsFor (schedule assets db today) a.id = [autoRecord a.id today] :=
    schedule_recordsFor_create ha rfl h0
  have h2 : latestNextDue (schedule assets db today) a.id = some (today + 365) := by
    simp [latestNextDue, h1, maxNextDue, autoRecord]
  have h3 := @schedule_recordsFor_skip (schedule assets db today) a.id today
    (today + 365) assets h2 (by omega)
  simp [countFor, h3, h1]

theorem scheduler_idempotent_per_day_witness :
    countFor (schedule [liveAsset 1] (schedule [liveAsset 1] [] 0) 0) 1 = 1 :=
  scheduler_idempotent_per_day [liveAsset 1] [] 0 (liveAsset 1) (by simp) rfl

/-- C3: Re-creation threshold is strict.  An asset whose latest record has
`next_due_date` equal to today is not re-created by the scheduler, while
an asset with zero maintenance records always triggers creation. -/
theorem recreation_threshold_strict (assets : List Asset)
    (db : List MaintenanceRecord) (today : Int) (a : Asset) :
    (latestNextDue db a.id = some today →
      countFor (schedule assets db today) a.id = countFor db a.id) ∧
    (a ∈ assets → recordsFor db a.id = [] →
      countFor (schedule assets db today) a.id = countFor db a.id + 1) := by
  constructor
  · intro h
    rw [countFor, schedule_recordsFor_skip assets h (lt_irrefl today)]
    rfl
  · intro ha h0
    rw [countFor, schedule_recordsFor_create ha rfl h0, countFor, h0]
    rfl

theorem recreation_threshold_strict_witness :
    countFor (schedule [liveAsset 1] [plainRec 1 (some 0)] 0) 1
      = countFor [plainRec 1 (some 0)] 1 ∧
    countFor (schedule [liveAsset 2] [] 5) 2
      = countFor ([] : List MaintenanceRecord) 2 + 1 := by
  constructor
  · exact (recreation_threshold_strict [liveAsset 1] [plainRec 1 (some 0)] 0
      (liveAsset 1)).1 (by decide)
  · exact (recreation_threshold_strict [liveAsset 2] [] 5 (liveAsset 2)).2
      (by simp) rfl

/-- C6: Batch commit atomicity and graceful degradation.  All staged
auto-schedule inserts are committed in one batch; when the commit fails
the database is unchanged (no partial commit, shown in particular for a
staged two-record batch), and the page still renders, computing its due
list and counts from the pre-existing data. -/
theorem batch_commit_atomic :
    (∀ (f : Nat → Bool) (assets : List Asset) (db : List MaintenanceRecord)
      (today : Int), runScheduler f false assets db today = db) ∧
    (∀ (f : Nat → Bool) (assets : List Asset) (db : List MaintenanceRecord)
      (today : Int),
      indexRun f false assets db today
        = (db, listDue db today, (listDue db today).countP (isOverdueRec today),
            (listDue db today).countP (isDueSoonRec today))) ∧
    stagePass (fun _ => false) [liveAsset 1, liveAsset 2] [] 0
      = [autoRecord 1 0, autoRecord 2 0] ∧
    runScheduler (fun _ => false) false [liveAsset 1, liveAsset 2] [] 0 = [] := by
  refine ⟨fun f assets db today => by simp [runScheduler],
    fun f assets db today => by simp [indexRun, runScheduler],
    by decide, by simp [runScheduler]⟩

/-- C7 counterexample: the claim that records staged for earlier assets
survive a later asset's staging failure is false.  With two fresh assets
1 and 2 and a failure while staging asset 2's record, the `except` arm's
`db.session.rollback()` discards asset 1's already-staged record, so
nothing is persisted at all. -/
theorem per_asset_failure_counterexample :
    countFor (runScheduler (fun n => n == 2) true [liveAsset 1, liveAsset 2] [] 0) 1
      = 0 ∧
    runScheduler (fun n => n == 2) true [liveAsset 1, liveAsset 2] [] 0 = [] := by
  exact ⟨by decide, by decide⟩

/-- C7 amended: a staging failure for one asset does not abort the loop —
every asset processed after the failure is still staged and committed —
but the rollback in the per-asset exception handler discards the records
staged for assets processed before the failure. -/
theorem per_asset_failure_amended (a b : Asset) (db : List MaintenanceRecord)
    (today : Int) (hab : a.id ≠ b.id) (hb : recordsFor db b.id = []) :
    countFor (runScheduler (fun n => n == a.id) true [a, b] db today) b.id
      = countFor db b.id + 1 ∧
    runScheduler (fun n => n == 2) true [liveAsset 1, liveAsset 2] [] 0 = [] := by
  refine ⟨?_, by decide⟩
  have hbne : needCreate db b.id today = true := by
    simp [needCreate, latestNextDue, hb, maxNextDue]
  have tail : stageGo (fun n => n == a.id) db today [b] [] = [autoRecord b.id today] := by
    rw [stageGo]
    simp only [List.append_nil, hbne, if_true,
      beq_eq_false_iff_ne.mpr (Ne.symm hab), Bool.false_eq_true, if_false]
    rw [stageGo]
    rfl
  have hstage : stagePass (fun n => n == a.id) [a, b] db today
      = [autoRecord b.id today] := by
    rw [stagePass, stageGo]
    by_cases hc : needCreate (db ++ []) a.id today
    · simp only [hc, if_true, beq_self_eq_true, if_true]
      exact tail
    · simp only [hc, Bool.false_eq_true, if_false]
      exact tail
  simp only [runScheduler, hstage, if_true, countFor, recordsFor_append,
    recordsFor_auto_self, List.length_append]
  rfl

theorem per_asset_failure_amended_witness :
    countFor (runScheduler (fun n => n == 1) true [liveAsset 1, liveAsset 2] [] 0) 2
      = countFor ([] : List MaintenanceRecord) 2 + 1 ∧
    runScheduler (fun n => n == 2) true [liveAsset 1, liveAsset 2] [] 0 = [] :=
  per_asset_failure_amended (liveAsset 1) (liveAsset 2) [] 0 (by decide) rfl

/-- C10: Implicit scheduler scope.  The staging loop reads nothing of an
asset but its id — two asset lists with the same ids stage identically,
whatever their `status` or `deleted_at` fields — so a soft-deleted,
disposed asset with no future schedule also receives an auto-created
record. -/
theorem scheduler_ignores_lifecycle :
    (∀ (f : Nat → Bool) (db : List MaintenanceRecord) (today : Int)
      (xs ys : List Asset),
      xs.map (fun a => a.id) = ys.map (fun a => a.id) →
      stagePass f xs db today = stagePass f ys db today) ∧
    (∀ (assets : List Asset) (db : List MaintenanceRecord) (today t : Int)
      (a : Asset), a ∈ assets → a.status = "disposed" → a.deleted_at = some t →
      recordsFor db a.id = [] →
      countFor (schedule assets db today) a.id = countFor db a.id + 1) := by
  constructor
  · intro f db today xs ys h
    exact stageGo_id_congr f db today xs ys h []
  · intro assets db today t a ha _ _ h0
    rw [countFor, schedule_recordsFor_create ha rfl h0, countFor, h0]
    rfl

theorem scheduler_ignores_lifecycle_witness :
    stagePass (fun _ => false) [⟨1, "disposed", some 9⟩] [] 0
      = stagePass (fun _ => false) [liveAsset 1] [] 0 ∧
    countFor (schedule [⟨1, "disposed", some 9⟩] [] 0) 1
      = countFor ([] : List MaintenanceRecord) 1 + 1 := by
  constructor
  · exact scheduler_ignores_lifecycle.1 (fun _ => false) [] 0
      [⟨1, "disposed", some 9⟩] [liveAsset 1] (by decide)
  · exact scheduler_ignores_lifecycle.2 [⟨1, "disposed", some 9⟩] [] 0 9
      ⟨1, "disposed", some 9⟩ (by simp) rfl rfl rfl

/-- C2 counterexample: the spec's concrete example is off by one day.
The scheduler sets `next_due_date = today + 365 days`, but 2024 is a leap
year, so for `today = 2024-01-10` the 365-day offset lands on 2025-01-09,
not on 2025-01-10 as the claim states. -/
theorem auto_schedule_date_math_counterexample :
    (autoRecord 1 (daysFromCivil ⟨2024, 1, 10⟩)).next_due_date
      = some (daysFromCivil ⟨2024, 1, 10⟩ + 365) ∧
    civilFromDays (daysFromCivil ⟨2024, 1, 10⟩ + 365) = ⟨2025, 1, 9⟩ ∧
    daysFromCivil ⟨2024, 1, 10⟩ + 365 ≠ daysFromCivil ⟨2025, 1, 10⟩ := by
  exact ⟨rfl, by decide, by decide⟩

/-- C2 amended: the generated record's `next_due_date` is always exactly
`today + 365` days; for `today = 2024-01-10` that is 2025-01-09 (365 days
spanning the 2024 leap day is one day short of a calendar year). -/
theorem auto_schedule_date_math (aid : Nat) (today : Int) :
    (autoRecord aid today).next_due_date = some (today + 365) ∧
    (autoRecord aid (daysFromCivil ⟨2024, 1, 10⟩)).next_due_date
      = some (daysFromCivil ⟨2025, 1, 9⟩) := by
  refine ⟨rfl, ?_⟩
  have h : daysFromCivil ⟨2024, 1, 10⟩ + 365 = daysFromCivil ⟨2025, 1, 9⟩ := by decide
  simp [autoRecord, h]

/-- C4: homepage due-list correctness.  Every member of `due_records` has
a non-null `next_due_date` at most `today + 30`; the list is ordered
ascending by `next_due_date`; it holds at most 10 records; and whenever
at most 10 records qualify it contains exactly the qualifying records. -/
theorem list_due_correct (db : List MaintenanceRecord) (today : Int) :
    (∀ r ∈ listDue db today, ∃ d, r.next_due_date = some d ∧ d ≤ today + 30) ∧
    (listDue db today).Pairwise (fun r s => ∀ dr ds,
      r.next_due_date = some dr → s.next_due_date = some ds → dr ≤ ds) ∧
    (listDue db today).length ≤ 10 ∧
    ((db.filter (dueSoonFilter today)).length ≤ 10 →
      List.Perm (listDue db today) (db.filter (dueSoonFilter today))) := by
  refine ⟨?_, ?_, ?_, ?_⟩
  · intro r hr
    have hmem : r ∈ db.filter (dueSoonFilter today) := by
      have := List.take_subset 10 (List.insertionSort dueLE
        (db.filter (dueSoonFilter today))) hr
      exact (List.mem_insertionSort dueLE).mp this
    have hpred := List.of_mem_filter hmem
    cases hnd : r.next_due_date with
    | none => simp [dueSoonFilter, hnd] at hpred
    | some d =>
      refine ⟨d, rfl, ?_⟩
      simpa [dueSoonFilter, hnd] using hpred
  · have hs : (List.insertionSort dueLE (db.filter (dueSoonFilter today))).Pairwise
        dueLE := List.sorted_insertionSort dueLE _
    have ht : (listDue db today).Pairwise dueLE :=
      List.Pairwise.sublist (List.take_sublist 10 _) hs
    refine ht.imp ?_
    intro r s hle dr ds hr hs'
    simpa [dueLE, dueKey, hr, hs'] using hle
  · exact List.length_take_le 10 _
  · intro hlen
    have hperm : List.Perm
        (List.insertionSort dueLE (db.filter (dueSoonFilter today)))
        (db.filter (dueSoonFilter today)) := List.perm_insertionSort dueLE _
    have hlen' : (List.insertionSort dueLE
        (db.filter (dueSoonFilter today))).length ≤ 10 := by
      rw [hperm.length_eq]; exact hlen
    rw [listDue, List.take_of_length_le hlen']
    exact hperm

theorem list_due_correct_witness :
    List.Perm (listDue [plainRec 1 (some 5), plainRec 2 (some 2)] 0)
      ([plainRec 1 (some 5), plainRec 2 (some 2)].filter (dueSoonFilter 0)) :=
  (list_due_correct [plainRec 1 (some 5), plainRec 2 (some 2)] 0).2.2.2 (by decide)

/-- C5: due-window classification boundaries.  A record due yesterday is
overdue (and inside the 30-day window); a record due today is due-soon,
not overdue; a record due in 31 days is outside the window and absent
from the due list; and the dashboard's global overdue count counts
exactly the records with a non-null `next_due_date` strictly before
today. -/
theorem due_window_boundaries (db : List MaintenanceRecord) (today : Int) :
    (∀ r : MaintenanceRecord, r.next_due_date = some (today - 1) →
      isOverdueRec today r = true ∧ dueSoonFilter today r = true) ∧
    (∀ r : MaintenanceRecord, r.next_due_date = some today →
      isDueSoonRec today r = true ∧ isOverdueRec today r = false ∧
      dueSoonFilter today r = true) ∧
    (∀ r : MaintenanceRecord, r.next_due_date = some (today + 31) →
      dueSoonFilter today r = false ∧ r ∉ listDue db today) ∧
    (∀ r : MaintenanceRecord,
      isOverdueRec today r = true ↔ ∃ d, r.next_due_date = some d ∧ d < today) ∧
    countOverdue db today = db.countP (isOverdueRec today) := by
  refine ⟨?_, ?_, ?_, ?_, ?_⟩
  · intro r h
    constructor
    · simp [isOverdueRec, h]
    · simp only [dueSoonFilter, h]
      rw [decide_eq_true_eq]
      omega
  · intro r h
    refine ⟨by simp [isDueSoonRec, h], by simp [isOverdueRec, h], ?_⟩
    simp only [dueSoonFilter, h]
    rw [decide_eq_true_eq]
    omega
  · intro r h
    have hf : dueSoonFilter today r = false := by
      simp [dueSoonFilter, h]
    refine ⟨hf, ?_⟩
    intro hmem
    have : r ∈ db.filter (dueSoonFilter today) :=
      (List.mem_insertionSort dueLE).mp (List.take_subset 10 _ hmem)
    have := List.of_mem_filter this
    rw [hf] at this
    exact Bool.false_ne_true this
  · intro r
    cases hnd : r.next_due_date with
    | none => simp [isOverdueRec, hnd]
    | some d => simp [isOverdueRec, hnd]
  · rw [countOverdue, List.countP_eq_length_filter]

theorem due_window_boundaries_witness :
    isOverdueRec 0 (plainRec 1 (some (-1))) = true ∧
    isDueSoonRec 0 (plainRec 2 (some 0)) = true ∧
    dueSoonFilter 0 (plainRec 3 (some 31)) = false ∧
    plainRec 3 (some 31) ∉ listDue [plainRec 3 (some 31)] 0 := by
  refine ⟨?_, ?_, ?_, ?_⟩
  · exact ((due_window_boundaries [] 0).1 (plainRec 1 (some (-1))) (by decide)).1
  · exact ((due_window_boundaries [] 0).2.1 (plainRec 2 (some 0)) (by decide)).1
  · exact ((due_window_boundaries [] 0).2.2.1 (plainRec 3 (some 31)) (by decide)).1
  · exact ((due_window_boundaries [plainRec 3 (some 31)] 0).2.2.1
      (plainRec 3 (some 31)) (by decide)).2

theorem mem_monthly_cost_report {db : List MaintenanceRecord} {year m : Int}
    {t : ℚ} :
    (m, t) ∈ monthly_cost_report db year ↔
      m ∈ List.insertionSort (fun a b => a ≤ b)
        (((db.filter (fun r => yearOf r.maintenance_date == year)).map
          (fun r => monthOf r.maintenance_date)).dedup) ∧
      t = sumCost ((db.filter (fun r => yearOf r.maintenance_date == year)).filter
        (fun r => monthOf r.maintenance_date == m)) := by
  simp only [monthly_cost_report]
  constructor
  · intro h
    obtain ⟨m', hm', heq⟩ := List.mem_map.mp h
    rw [Prod.mk.injEq] at heq
    obtain ⟨h1, h2⟩ := heq
    subst h1
    exact ⟨hm', h2.symm⟩
  · rintro ⟨hm, rfl⟩
    exact List.mem_map.mpr ⟨m, hm, rfl⟩

theorem mem_report_months {db : List MaintenanceRecord} {year m : Int} :
    m ∈ List.insertionSort (fun a b => a ≤ b)
      (((db.filter (fun r => yearOf r.maintenance_date == year)).map
        (fun r => monthOf r.maintenance_date)).dedup) ↔
    ∃ r ∈ db, yearOf r.maintenance_date = year ∧ monthOf r.maintenance_date = m := by
  rw [List.mem_insertionSort, List.mem_dedup, List.mem_map]
  constructor
  · rintro ⟨r, hr, rfl⟩
    have h := List.mem_filter.mp hr
    exact ⟨r, h.1, by simpa using h.2, rfl⟩
  · rintro ⟨r, hr, hy, hm⟩
    exact ⟨r, List.mem_filter.mpr ⟨hr, by simpa using hy⟩, hm⟩

/-- C8: Monthly report sparsity.  The concrete example: records only in
March (cost 100) and July (cost 200) of 2023 yield exactly
`[(3, 100), (7, 200)]` with year total 300.  In general a month with no
record in the year never appears in the report, the reported months are
strictly increasing, every month with a record appears, and each reported
total is the cost sum of exactly that month's records. -/
theorem monthly_report_sparse :
    monthly_cost_report reportDb 2023 = [(3, 100), (7, 200)] ∧
    total_year reportDb 2023 = 300 ∧
    (∀ (db : List MaintenanceRecord) (year m : Int),
      (∀ r ∈ db, yearOf r.maintenance_date = year →
        monthOf r.maintenance_date ≠ m) →
      ∀ t : ℚ, (m, t) ∉ monthly_cost_report db year) ∧
    (∀ (db : List MaintenanceRecord) (year : Int),
      ((monthly_cost_report db year).map Prod.fst).Pairwise (fun m n => m < n)) ∧
    (∀ (db : List MaintenanceRecord) (year : Int) (r : MaintenanceRecord),
      r ∈ db → yearOf r.maintenance_date = year →
      ∃ t : ℚ, (monthOf r.maintenance_date, t) ∈ monthly_cost_report db year) ∧
    (∀ (db : List MaintenanceRecord) (year m : Int) (t : ℚ),
      (m, t) ∈ monthly_cost_report db year →
      t = sumCost ((db.filter (fun r => yearOf r.maintenance_date == year)).filter
        (fun r => monthOf r.maintenance_date == m))) := by
  have hrep : monthly_cost_report reportDb 2023 = [(3, 100), (7, 200)] := by
    have h1 : yearOf (daysFromCivil ⟨2023, 3, 15⟩) = 2023 := by decide
    have h2 : yearOf (daysFromCivil ⟨2023, 7, 20⟩) = 2023 := by decide
    have h3 : monthOf (daysFromCivil ⟨2023, 3, 15⟩) = 3 := by decide
    have h4 : monthOf (daysFromCivil ⟨2023, 7, 20⟩) = 7 := by decide
    have h5 : ((7 : Int) == 3) = false := by decide
    have h6 : ((3 : Int) == 7) = false := by decide
    simp only [monthly_cost_report, reportDb, datedRec]
    norm_num [h1, h2, h3, h4, h5, h6, List.dedup, List.insertionSort,
      List.orderedInsert, List.filter, sumCost, List.pwFilter]
  refine ⟨hrep, by rw [total_year, hrep]; norm_num, ?_, ?_, ?_, ?_⟩
  · intro db year m hno t hmem
    obtain ⟨hm, _⟩ := mem_monthly_cost_report.mp hmem
    obtain ⟨r, hr, hy, hmo⟩ := mem_report_months.mp hm
    exact hno r hr hy hmo
  · intro db year
    have h1 : List.Sorted (fun a b => a ≤ b) (List.insertionSort (fun a b => a ≤ b)
        (((db.filter (fun r => yearOf r.maintenance_date == year)).map
          (fun r => monthOf r.maintenance_date)).dedup)) :=
      List.sorted_insertionSort _ _
    have h2 : (List.insertionSort (fun a b => a ≤ b)
        (((db.filter (fun r => yearOf r.maintenance_date == year)).map
          (fun r => monthOf r.maintenance_date)).dedup)).Nodup :=
      (List.perm_insertionSort _ _).nodup_iff.mpr (List.nodup_dedup _)
    have h3 := List.Sorted.lt_of_le h1 h2
    have h4 : (monthly_cost_report db year).map Prod.fst
        = List.insertionSort (fun a b => a ≤ b)
          (((db.filter (fun r => yearOf r.maintenance_date == year)).map
            (fun r => monthOf r.maintenance_date)).dedup) := by
      simp only [monthly_cost_report, List.map_map]
      exact List.map_id _
    rw [h4]
    exact h3
  · intro db year r hr hy
    refine ⟨sumCost ((db.filter (fun s => yearOf s.maintenance_date == year)).filter
      (fun s => monthOf s.maintenance_date == monthOf r.maintenance_date)), ?_⟩
    exact mem_monthly_cost_report.mpr ⟨mem_report_months.mpr ⟨r, hr, hy, rfl⟩, rfl⟩
  · intro db year m t hmem
    exact (mem_monthly_cost_report.mp hmem).2

theorem monthly_report_sparse_witness :
    (∀ t : ℚ, ((5 : Int), t) ∉ monthly_cost_report reportDb 2023) ∧
    (∃ t : ℚ, ((3 : Int), t) ∈ monthly_cost_report reportDb 2023) := by
  constructor
  · exact monthly_report_sparse.2.2.1 reportDb 2023 5 (by decide)
  · have h := monthly_report_sparse.2.2.2.2.1 reportDb 2023 (datedRec 3 15 100)
      (by simp [reportDb]) (by decide)
    have hm : monthOf (datedRec 3 15 100).maintenance_date = 3 := by decide
    rw [hm] at h
    exact h

/-- C9: KPI rounding.  Over the sample period of 7 records with 3
completed and total cost 1000 the dashboard reports a completion rate of
42.9 (one decimal, `round((3/7)*100, 1)`) and an average cost per record
of 143 (`round(1000/7)`), and both KPIs are 0 over an empty period. -/
theorem kpi_rounding :
    completion_rate kpiDb = 429 / 10 ∧
    avg_cost_per_record kpiDb = 143 ∧
    kpiDb.length = 7 ∧
    completedCount kpiDb = 3 ∧
    totalCost kpiDb = 1000 ∧
    completion_rate [] = 0 ∧
    avg_cost_per_record [] = 0 := by
  have h1 : completedCount kpiDb = 3 := by decide
  have h2 : kpiDb.length = 7 := by decide
  have h3 : totalCost kpiDb = 1000 := by norm_num [totalCost, sumCost, kpiDb, statusRec]
  refine ⟨?_, ?_, h2, h1, h3, rfl, rfl⟩
  · rw [completion_rate, h1, h2]
    norm_num [pyRound1, pyRoundInt]
  · rw [avg_cost_per_record, h2, h3]
    norm_num [pyRoundInt]

end Qlts
